import Mathlib

/-!
# Verification of `popevo.py`

A shallow embedding of the evolutionary-animation script `popevo.py`:
an `organism` class (a point entity whose height/fitness is read off a
fitness-landscape mesh by a vertical ray-cast) and a `pop` class (an
ordered list of organisms with generational operations `reproduce`,
`retire`, `select`).

Modelling decisions, each noted again at the definition it concerns:

* The host application's ray-cast against the `fitnessLandscape` mesh is
  modelled as a partial height function `surf : ℚ → ℚ → Option ℚ`: the
  vertical ray dropped at `(x, y)` either misses (`none`) or hits the
  surface at height `z` (`some z`), so the hit location is `(x, y, z)`.
* `random.gauss(mu, sigma)` is modelled by an oracle
  `gauss : ℚ → ℚ → ℕ → ℚ` giving the value of the `i`-th draw of the
  operation at hand, applied to the same `(mu, sigma)` arguments the
  script passes; successive calls consume successive indices.
* Python's stable `list.sort(key=fitness)` is modelled by Mathlib's
  stable `List.insertionSort` on the fitness order.
* Scene side effects that the claims mention (creating the ico-sphere
  proxy, `sys.exit`) are recorded as an explicit event trace in the
  organism constructor; keyframe insertion and collection (re)linking
  are pure animation/scene bookkeeping and are not modelled.
* `die` sets `hide_render = True` on the proxy, modelled by the `hidden`
  flag; population operations additionally return the list of members
  `die` was invoked on, in call order.
* Coordinates are rationals; the script's literals `0.025`, `0.005`,
  `0.0765` become `1/40`, `1/200`, `153/2000`.
-/

/-- An organism of `popevo.py`: position `(x, y, z)` with `fitness`
aliased to `z`, the fixed dispersal step `fitstep = 0.025`, the visual
radius `radius = 0.005`, the `reproduced` flag, and the proxy's
`hide_render` state (`hidden`, set by `die`). -/
structure organism where
  x : ℚ
  y : ℚ
  z : ℚ
  fitness : ℚ
  fitstep : ℚ
  radius : ℚ
  reproduced : Bool
  hidden : Bool
deriving DecidableEq, Repr

/-- Scene events emitted by the organism constructor, in source order:
creation of the ico-sphere proxy (at its start location, with its
radius), or termination of the whole process via `sys.exit`. -/
inductive Event where
  | proxyCreated (loc : ℚ × ℚ × ℚ) (radius : ℚ)
  | processExit (msg : String)
deriving DecidableEq, Repr

/-- `True` exactly on the proxy-creation event. -/
def Event.isProxyCreated : Event → Bool
  | Event.proxyCreated _ _ => true
  | Event.processExit _ => false

/-- `organism.__init__(x, y, parentLoc)` with its scene-event trace.
The vertical ray-cast at `(x, y)` is `surf x y`; on a miss the process
exits (`sys.exit("point is not over fitnessLandscape")`) before the
proxy is created, on a hit the organism sits at `(x, y, z)` with
`fitness = z` and its proxy is created at the parent's location (or at
its own location when `parentLoc = (0,0,0)`, the founder default).
Keyframe scheduling (the `key ≠ 0` branch) is not modelled. -/
def organism.initCore (surf : ℚ → ℚ → Option ℚ) (x y : ℚ)
    (parentLoc : ℚ × ℚ × ℚ) : List Event × Option organism :=
  match surf x y with
  | none => ([Event.processExit "point is not over fitnessLandscape"], none)
  | some z =>
    ([Event.proxyCreated (if parentLoc = (0, 0, 0) then (x, y, z) else parentLoc) (1/200)],
     some { x := x, y := y, z := z, fitness := z, fitstep := 1/40, radius := 1/200,
            reproduced := false, hidden := false })

/-- The organism (if any) produced by the constructor. -/
def organism.init (surf : ℚ → ℚ → Option ℚ) (x y : ℚ)
    (parentLoc : ℚ × ℚ × ℚ) : Option organism :=
  (organism.initCore surf x y parentLoc).2

/-- `organism.die`: the organism never really dies, its proxy is just
hidden (`hide_render = True`). -/
def organism.die (o : organism) : organism :=
  { o with hidden := true }

/-- The child-creation loop of `organism.reproduce`: `n` children left
to create, `i` the running loop index. Child `i` is constructed at
`(x + gauss(0, fitstep), y + gauss(0, fitstep))` — draws `2*i` and
`2*i + 1` of the oracle — with `parentLoc = self.location`. A miss in
any child's constructor exits the process (`none`). -/
def organism.reproduceAux (surf : ℚ → ℚ → Option ℚ) (gauss : ℚ → ℚ → ℕ → ℚ)
    (o : organism) : ℕ → ℕ → Option (List organism)
  | 0, _ => some []
  | n + 1, i =>
    match organism.init surf (o.x + gauss 0 o.fitstep (2 * i))
        (o.y + gauss 0 o.fitstep (2 * i + 1)) (o.x, o.y, o.z) with
    | none => none
    | some child =>
      match organism.reproduceAux surf gauss o n (i + 1) with
      | none => none
      | some rest => some (child :: rest)

/-- `organism.reproduce(N)`: produce `N` children nearby, then mark
`self.reproduced = True` and return the children. Returns the children
together with the updated parent; `none` when a child's constructor
exits the process (the flag is then never set). -/
def organism.reproduce (surf : ℚ → ℚ → Option ℚ) (gauss : ℚ → ℚ → ℕ → ℚ)
    (o : organism) (N : ℕ) : Option (List organism × organism) :=
  match organism.reproduceAux surf gauss o N 0 with
  | none => none
  | some out => some (out, { o with reproduced := true })

/-- The ordering the population is sorted by: ascending fitness
(`key=lambda ob: ob.fitness`). -/
def fitRel (a b : organism) : Prop :=
  a.fitness ≤ b.fitness

instance : DecidableRel fitRel :=
  fun a b => inferInstanceAs (Decidable (a.fitness ≤ b.fitness))

instance : IsTotal organism fitRel :=
  ⟨fun a b => le_total a.fitness b.fitness⟩

instance : IsTrans organism fitRel :=
  ⟨fun _ _ _ h h2 => le_trans h h2⟩

/-- `self.population.sort(key=lambda ob: ob.fitness)`: Python's stable
sort, modelled by Mathlib's stable insertion sort. -/
def sortByFitness (l : List organism) : List organism :=
  List.insertionSort fitRel l

/-- "Sorted ascending by fitness", the population invariant. -/
def SortedPop (l : List organism) : Prop :=
  List.Sorted fitRel l

/-- The founder loop of `pop.__init__`: `n` founders left, `i` the
running loop index. Founder `i` is created at
`(gauss(0, 0.05), gauss(0, 0.05))` — draws `2*i` and `2*i + 1` — with
`parentLoc = (0, 0, 0.0765)`. Collection linking is scene bookkeeping
and is not modelled. -/
def pop.initAux (surf : ℚ → ℚ → Option ℚ) (gauss : ℚ → ℚ → ℕ → ℚ) :
    ℕ → ℕ → Option (List organism)
  | 0, _ => some []
  | n + 1, i =>
    match organism.init surf (gauss 0 (1/20) (2 * i)) (gauss 0 (1/20) (2 * i + 1))
        (0, 0, 153/2000) with
    | none => none
    | some o =>
      match pop.initAux surf gauss n (i + 1) with
      | none => none
      | some rest => some (o :: rest)

/-- `pop.__init__(N)`: create `N` founders, then sort ascending by
fitness ("put the least fit at the front"). -/
def pop.init (surf : ℚ → ℚ → Option ℚ) (gauss : ℚ → ℚ → ℕ → ℚ)
    (N : ℕ) : Option (List organism) :=
  (pop.initAux surf gauss N 0).map sortByFitness

/-- The member loop of `pop.reproduce`: each member in turn spawns `N`
children (consuming `2 * N` oracle draws starting at offset `k`, since
the script's sequential `random.gauss` calls draw from one stream);
returns the updated parents (in order, each now flagged `reproduced`)
and the concatenated young. -/
def pop.reproduceAux (surf : ℚ → ℚ → Option ℚ) (gauss : ℚ → ℚ → ℕ → ℚ)
    (N : ℕ) : List organism → ℕ → Option (List organism × List organism)
  | [], _ => some ([], [])
  | o :: rest, k =>
    match organism.reproduce surf (fun mu s j => gauss mu s (k + j)) o N with
    | none => none
    | some (children, o2) =>
      match pop.reproduceAux surf gauss N rest (k + 2 * N) with
      | none => none
      | some (parents, young) => some (o2 :: parents, children ++ young)

/-- `pop.reproduce(N)`: every member spawns `N` offspring, the young
are appended to the population (`self.population.extend(young)`), and
the whole is resorted ascending by fitness. -/
def pop.reproduce (surf : ℚ → ℚ → Option ℚ) (gauss : ℚ → ℚ → ℕ → ℚ)
    (N : ℕ) (p : List organism) : Option (List organism) :=
  match pop.reproduceAux surf gauss N p 0 with
  | none => none
  | some (parents, young) => some (sortByFitness (parents ++ young))

/-- `pop.retire()`: the back-to-front index loop
`for i in range(len-1, -1, -1)` that `die`s and pops every member whose
`reproduced` flag is set, rendered as structural recursion (the tail of
the list holds the higher indices, so its removals happen first —
identical result and identical `die` order). Returns
`(members die was called on, in call order; remaining population)`. -/
def pop.retire : List organism → List organism × List organism
  | [] => ([], [])
  | o :: rest =>
    let r := pop.retire rest
    if o.reproduced then (r.1 ++ [organism.die o], r.2)
    else (r.1, o :: r.2)

/-- Outcome of `pop.select`: normal completion, an uncaught
`IndexError` from `self.population[1]` on a list of fewer than two
members (the process dies with the population in the state shown), or
the `sys.exit` of the out-of-range-fraction branch. Each outcome
carries the members `die` was called on and the population's state. -/
inductive SelectResult where
  | ok (died : List organism) (population : List organism)
  | indexError (died : List organism) (population : List organism)
  | sysExit (msg : String) (died : List organism) (population : List organism)
deriving DecidableEq, Repr

/-- The members `die` was called on, whatever the outcome. -/
def SelectResult.died : SelectResult → List organism
  | SelectResult.ok d _ => d
  | SelectResult.indexError d _ => d
  | SelectResult.sysExit _ d _ => d

/-- `True` exactly on normal completion. -/
def SelectResult.isOk : SelectResult → Bool
  | SelectResult.ok _ _ => true
  | _ => false

/-- The removal loop of `pop.select`: `n` iterations of
`self.population[1].die(); self.population.pop(1)`. With at least two
members the element at index 1 dies and is removed; otherwise the
index-1 access raises `IndexError`. -/
def pop.selectLoop : List organism → List organism → ℕ → SelectResult
  | acc, p, 0 => SelectResult.ok acc p
  | acc, p, n + 1 =>
    match p with
    | a :: b :: rest => pop.selectLoop (acc ++ [organism.die b]) (a :: rest) n
    | _ => SelectResult.indexError acc p

/-- `pop.select(fraction)`: if `0 <= fraction <= 1`, remove
`Nselected = int(fraction * len(population))` members via the index-1
loop (`int` truncates toward zero, which on this nonnegative product is
the floor); otherwise `sys.exit("must select away a positive
fraction.")` with the population untouched. -/
def pop.select (fraction : ℚ) (p : List organism) : SelectResult :=
  if 0 ≤ fraction ∧ fraction ≤ 1 then
    pop.selectLoop [] p (Int.toNat ⌊fraction * (p.length : ℚ)⌋)
  else
    SelectResult.sysExit "must select away a positive fraction." [] p

/-! ## Concrete instances used by witnesses and counterexamples -/

/-- A flat landscape: every vertical ray hits at height 0. -/
def surfZero : ℚ → ℚ → Option ℚ := fun _ _ => some 0

/-- A landscape the vertical ray always misses. -/
def surfNone : ℚ → ℚ → Option ℚ := fun _ _ => none

/-- A landscape of height `x`: fitness grows with the `x` coordinate. -/
def surfX : ℚ → ℚ → Option ℚ := fun x _ => some x

/-- A degenerate random oracle that always draws 0. -/
def gaussZero : ℚ → ℚ → ℕ → ℚ := fun _ _ _ => 0

/-- A concrete organism at the origin of the flat landscape. -/
def orgA : organism :=
  { x := 0, y := 0, z := 0, fitness := 0, fitstep := 1/40, radius := 1/200,
    reproduced := false, hidden := false }

/-- A concrete organism of fitness 1. -/
def orgB : organism :=
  { x := 1, y := 0, z := 1, fitness := 1, fitstep := 1/40, radius := 1/200,
    reproduced := false, hidden := false }

/-- A concrete organism of fitness 2 with the `reproduced` flag set. -/
def orgR : organism :=
  { x := 2, y := 0, z := 2, fitness := 2, fitstep := 1/40, radius := 1/200,
    reproduced := true, hidden := false }

/-! ## Helper lemmas about the selection loop -/

/-- When fewer removals are requested than the population can supply
through the index-1 code path, the loop completes: it removes exactly
`n` members (appended to the accumulator `acc`), leaves a sublist of
the input, and every new entry of the accumulator is the `die` of an
input member. -/
theorem selectLoop_ok_spec (n : ℕ) : ∀ (acc p : List organism),
    (n = 0 ∨ n + 1 ≤ p.length) →
    ∃ died q, pop.selectLoop acc p n = SelectResult.ok died q ∧
      died.length = acc.length + n ∧
      q.length + n = p.length ∧
      List.Sublist q p ∧
      ∀ o ∈ died, o ∈ acc ∨ ∃ m ∈ p, o = organism.die m := by
  induction n with
  | zero =>
    intro acc p _
    exact ⟨acc, p, rfl, by simp, by simp, List.Sublist.refl p, fun o ho => Or.inl ho⟩
  | succ n ih =>
    intro acc p h
    have hlen : n + 2 ≤ p.length := by rcases h with h | h <;> omega
    cases p with
    | nil => exact absurd hlen (by simp)
    | cons a p1 =>
      cases p1 with
      | nil =>
        exact absurd hlen (by simp only [List.length_cons, List.length_nil]; omega)
      | cons b rest =>
        obtain ⟨died, q, heq, hdlen, hqlen, hsub, hmem⟩ :=
          ih (acc ++ [organism.die b]) (a :: rest)
            (by simp only [List.length_cons] at hlen ⊢; omega)
        refine ⟨died, q, heq, ?_, ?_, ?_, ?_⟩
        · simp only [List.length_append, List.length_cons, List.length_nil] at hdlen
          omega
        · simp only [List.length_cons] at hqlen ⊢
          omega
        · exact hsub.trans (List.Sublist.cons₂ a (List.sublist_cons_self b rest))
        · intro o ho
          rcases hmem o ho with hacc | ⟨m, hm, hdie⟩
          · rcases List.mem_append.mp hacc with h1 | h2
            · exact Or.inl h1
            · refine Or.inr ⟨b, ?_, by simpa using h2⟩
              exact List.mem_cons_of_mem a (List.mem_cons_self b rest)
          · refine Or.inr ⟨m, ?_, hdie⟩
            rcases List.mem_cons.mp hm with hma | hmr
            · exact hma ▸ List.mem_cons_self a (b :: rest)
            · exact List.mem_cons_of_mem a (List.mem_cons_of_mem b hmr)

/-- When at least as many removals are requested as there are members
(and there is at least one), the loop dies with `IndexError`: exactly
one member is left, after `length - 1` removals. -/
theorem selectLoop_indexError_spec (n : ℕ) : ∀ (acc p : List organism),
    p.length ≤ n → 1 ≤ p.length →
    ∃ died q, pop.selectLoop acc p n = SelectResult.indexError died q ∧
      q.length = 1 ∧ died.length + 1 = acc.length + p.length := by
  induction n with
  | zero =>
    intro acc p h1 h2
    omega
  | succ n ih =>
    intro acc p h1 h2
    cases p with
    | nil => simp at h2
    | cons a p1 =>
      cases p1 with
      | nil => exact ⟨acc, [a], rfl, rfl, by simp⟩
      | cons b rest =>
        obtain ⟨died, q, heq, hq, hd⟩ := ih (acc ++ [organism.die b]) (a :: rest)
          (by simp only [List.length_cons] at h1 ⊢; omega)
          (by simp only [List.length_cons]; omega)
        refine ⟨died, q, heq, hq, ?_⟩
        simp only [List.length_append, List.length_cons, List.length_nil] at hd ⊢
        omega

/-! ## Claim theorems: selection -/

/-- C1: the claim says `pop.select(f)` discards the least-fit
`⌊f·size⌋` members. The code pops index 1, never index 0. On the
sorted two-member population `[orgA, orgB]` (fitness 0 < fitness 1),
`select(1/2)` removes `orgB` — the most fit — and the least-fit `orgA`
survives, contradicting the claim; the sort comment ("least fit at the
front") shows removal from the front was the intent, so this is a
defect in the code. -/
theorem select_spares_least_fit :
    pop.select (1/2) [orgA, orgB] = SelectResult.ok [organism.die orgB] [orgA] ∧
    orgA.fitness < orgB.fitness := by
  with_unfolding_all decide

/-- C2 (counterexample): with fraction exactly 1 on a one-member
population, `select` does not remove `⌊1 · 1⌋ = 1` members — the
index-1 access raises `IndexError` with nothing removed. -/
theorem select_floor_count_cex :
    pop.select 1 [orgA] = SelectResult.indexError [] [orgA] ∧
    (pop.select 1 [orgA]).died.length ≠
      Int.toNat ⌊(1 : ℚ) * (([orgA] : List organism).length : ℚ)⌋ := by
  with_unfolding_all decide

/-- C2 (amended): for a fraction `f ∈ [0, 1]`, provided the requested
count `⌊f · M⌋` is smaller than the population size `M` (or the
population is empty — in particular whenever `f < 1`), `pop.select f`
removes exactly `⌊f · M⌋` members, each of them via its `die`. -/
theorem select_removes_floor (fraction : ℚ) (p : List organism)
    (h0 : 0 ≤ fraction) (h1 : fraction ≤ 1)
    (hn : Int.toNat ⌊fraction * (p.length : ℚ)⌋ < p.length ∨ p.length = 0) :
    ∃ died q, pop.select fraction p = SelectResult.ok died q ∧
      died.length = Int.toNat ⌊fraction * (p.length : ℚ)⌋ ∧
      q.length + died.length = p.length ∧
      ∀ o ∈ died, ∃ m ∈ p, o = organism.die m := by
  unfold pop.select
  rw [if_pos ⟨h0, h1⟩]
  have hcond : Int.toNat ⌊fraction * (p.length : ℚ)⌋ = 0 ∨
      Int.toNat ⌊fraction * (p.length : ℚ)⌋ + 1 ≤ p.length := by
    rcases hn with h | h
    · right; omega
    · left
      have hp : p = [] := List.length_eq_zero.mp h
      subst hp
      simp
  obtain ⟨died, q, heq, hdlen, hqlen, hsub, hmem⟩ :=
    selectLoop_ok_spec (Int.toNat ⌊fraction * (p.length : ℚ)⌋) [] p hcond
  simp only [List.length_nil, Nat.zero_add] at hdlen
  refine ⟨died, q, heq, hdlen, by omega, ?_⟩
  intro o ho
  rcases hmem o ho with h | h
  · simp at h
  · exact h

/-- C2 (witness): on the sorted two-member population with fraction
`1/2`, the hypotheses hold and exactly one member is removed. -/
theorem select_removes_floor_witness :
    (0 ≤ (1/2 : ℚ)) ∧ ((1/2 : ℚ) ≤ 1) ∧
    (Int.toNat ⌊(1/2 : ℚ) * (([orgA, orgB] : List organism).length : ℚ)⌋ <
        ([orgA, orgB] : List organism).length ∨
      ([orgA, orgB] : List organism).length = 0) ∧
    ∃ died q, pop.select (1/2) [orgA, orgB] = SelectResult.ok died q ∧
      died.length = Int.toNat ⌊(1/2 : ℚ) * (([orgA, orgB] : List organism).length : ℚ)⌋ ∧
      q.length + died.length = ([orgA, orgB] : List organism).length ∧
      ∀ o ∈ died, ∃ m ∈ ([orgA, orgB] : List organism), o = organism.die m :=
  ⟨by norm_num, by norm_num, by with_unfolding_all decide,
    select_removes_floor (1/2) [orgA, orgB] (by norm_num) (by norm_num)
      (by with_unfolding_all decide)⟩

/-- C3: a fraction outside `[0, 1]` makes `select` call `sys.exit`
straight away: no member is removed, no `die` is called, and the
population is exactly as it was. -/
theorem select_out_of_range (fraction : ℚ) (p : List organism)
    (h : fraction < 0 ∨ 1 < fraction) :
    pop.select fraction p =
      SelectResult.sysExit "must select away a positive fraction." [] p := by
  have hc : ¬ (0 ≤ fraction ∧ fraction ≤ 1) := by
    rintro ⟨h0, h1⟩
    rcases h with h | h
    · linarith
    · linarith
  unfold pop.select
  rw [if_neg hc]

/-- C3 (witness): fraction `3/2` (the spec's `1.5`) on a one-member
population exits the process with the population untouched. -/
theorem select_out_of_range_witness :
    ((3/2 : ℚ) < 0 ∨ 1 < (3/2 : ℚ)) ∧
    pop.select (3/2) [orgA] =
      SelectResult.sysExit "must select away a positive fraction." [] [orgA] :=
  ⟨Or.inr (by norm_num), select_out_of_range (3/2) [orgA] (Or.inr (by norm_num))⟩

/-- C10: `select(1)` passes the range check and requests as many
removals as there are members, but the index-1 loop cannot remove the
last one: it raises `IndexError` with exactly one member left, after
`M - 1` removals — emptying the population never completes through the
in-range code path. -/
theorem select_fraction_one_index_error (p : List organism) (h : p ≠ []) :
    ∃ died rest, pop.select 1 p = SelectResult.indexError died rest ∧
      rest.length = 1 ∧ died.length + 1 = p.length ∧
      Int.toNat ⌊(1 : ℚ) * (p.length : ℚ)⌋ = p.length := by
  have hflr : Int.toNat ⌊(1 : ℚ) * (p.length : ℚ)⌋ = p.length := by
    rw [one_mul, Int.floor_natCast, Int.toNat_natCast]
  have hpos : 1 ≤ p.length := List.length_pos.mpr h
  unfold pop.select
  rw [if_pos ⟨by norm_num, le_refl 1⟩, hflr]
  obtain ⟨died, q, heq, hq, hd⟩ :=
    selectLoop_indexError_spec p.length [] p (le_refl _) hpos
  refine ⟨died, q, heq, hq, ?_, rfl⟩
  simpa using hd

/-- C10 (witness): on the one-member population, `select(1)` raises
`IndexError` at once, with the member still present. -/
theorem select_fraction_one_index_error_witness :
    (([orgA] : List organism) ≠ []) ∧
    ∃ died rest, pop.select 1 [orgA] = SelectResult.indexError died rest ∧
      rest.length = 1 ∧ died.length + 1 = ([orgA] : List organism).length ∧
      Int.toNat ⌊(1 : ℚ) * (([orgA] : List organism).length : ℚ)⌋ =
        ([orgA] : List organism).length :=
  ⟨by simp, select_fraction_one_index_error [orgA] (by simp)⟩

/-! ## Helper lemmas about retirement -/

/-- The survivors of `retire` are exactly the unflagged members, in
their original order. -/
theorem retire_snd (p : List organism) :
    (pop.retire p).2 = p.filter (fun o => !o.reproduced) := by
  induction p with
  | nil => rfl
  | cons o rest ih =>
    cases h : o.reproduced <;> simp [pop.retire, h, ih]

/-- Every flagged member of the input has its `die` recorded by
`retire`. -/
theorem retire_died_mem (p : List organism) :
    ∀ o ∈ p, o.reproduced = true → organism.die o ∈ (pop.retire p).1 := by
  induction p with
  | nil =>
    intro o ho
    simp at ho
  | cons a rest ih =>
    intro o ho hrep
    rcases List.mem_cons.mp ho with hoa | hmem
    · subst hoa
      simp [pop.retire, hrep]
    · cases h : a.reproduced <;> simp [pop.retire, h, ih o hmem hrep]

/-- Flagged and unflagged members account for the whole population. -/
theorem filter_reproduced_length (p : List organism) :
    (p.filter (fun o => !o.reproduced)).length +
      p.countP (fun o => o.reproduced) = p.length := by
  induction p with
  | nil => rfl
  | cons a rest ih =>
    cases h : a.reproduced <;>
      simp [List.filter_cons, List.countP_cons, h] <;> omega

/-- C5: after `retire` no remaining member has the `reproduced` flag
set, the member count drops by exactly the number of flagged members,
and `die` was called on every removed (flagged) member. -/
theorem retire_contract (p : List organism) :
    (∀ o ∈ (pop.retire p).2, o.reproduced = false) ∧
    (pop.retire p).2.length + p.countP (fun o => o.reproduced) = p.length ∧
    ∀ o ∈ p, o.reproduced = true → organism.die o ∈ (pop.retire p).1 := by
  refine ⟨?_, ?_, retire_died_mem p⟩
  · intro o ho
    rw [retire_snd] at ho
    have hmem := List.of_mem_filter ho
    simpa using hmem
  · rw [retire_snd]
    exact filter_reproduced_length p

/-- C5 (witness): retiring the population `[orgA, orgR]`, where only
`orgR` is flagged, removes `orgR` via `die` and keeps `orgA`. -/
theorem retire_contract_witness :
    (∀ o ∈ (pop.retire [orgA, orgR]).2, o.reproduced = false) ∧
    (pop.retire [orgA, orgR]).2.length +
      ([orgA, orgR] : List organism).countP (fun o => o.reproduced) =
      ([orgA, orgR] : List organism).length ∧
    ∀ o ∈ ([orgA, orgR] : List organism), o.reproduced = true →
      organism.die o ∈ (pop.retire [orgA, orgR]).1 :=
  retire_contract [orgA, orgR]

/-! ## Helper lemmas and theorems about sortedness -/

/-- A completed selection loop leaves a sublist of the input
population. -/
theorem selectLoop_ok_sublist (n : ℕ) : ∀ (acc p died q : List organism),
    pop.selectLoop acc p n = SelectResult.ok died q → List.Sublist q p := by
  induction n with
  | zero =>
    intro acc p died q h
    have h2 : SelectResult.ok acc p = SelectResult.ok died q := h
    cases h2
    exact List.Sublist.refl p
  | succ n ih =>
    intro acc p died q h
    cases p with
    | nil => exact SelectResult.noConfusion h
    | cons a p1 =>
      cases p1 with
      | nil => exact SelectResult.noConfusion h
      | cons b rest =>
        have h2 : pop.selectLoop (acc ++ [organism.die b]) (a :: rest) n =
            SelectResult.ok died q := h
        exact (ih _ _ _ _ h2).trans
          (List.Sublist.cons₂ a (List.sublist_cons_self b rest))

/-- C6: the population is sorted ascending by fitness after every
structural change: construction and `reproduce` sort explicitly, and
`retire` and `select` (under their preconditions — for `select`, a
normal completion) remove members from a sorted population, which
stays sorted. -/
theorem population_sorted_invariant (surf : ℚ → ℚ → Option ℚ)
    (gauss : ℚ → ℚ → ℕ → ℚ) :
    (∀ N q, pop.init surf gauss N = some q → SortedPop q) ∧
    (∀ N p q, pop.reproduce surf gauss N p = some q → SortedPop q) ∧
    (∀ p, SortedPop p → SortedPop (pop.retire p).2) ∧
    (∀ fraction p died q, SortedPop p →
      pop.select fraction p = SelectResult.ok died q → SortedPop q) := by
  refine ⟨?_, ?_, ?_, ?_⟩
  · intro N q h
    unfold pop.init at h
    cases haux : pop.initAux surf gauss N 0 with
    | none => rw [haux] at h; exact Option.noConfusion h
    | some l =>
      rw [haux] at h
      have h2 : some (sortByFitness l) = some q := h
      cases h2
      exact List.sorted_insertionSort fitRel l
  · intro N p q h
    unfold pop.reproduce at h
    cases haux : pop.reproduceAux surf gauss N p 0 with
    | none => rw [haux] at h; exact Option.noConfusion h
    | some pr =>
      obtain ⟨parents, young⟩ := pr
      rw [haux] at h
      have h2 : some (sortByFitness (parents ++ young)) = some q := h
      cases h2
      exact List.sorted_insertionSort fitRel (parents ++ young)
  · intro p hs
    rw [retire_snd]
    exact List.Pairwise.sublist (List.filter_sublist p) hs
  · intro fraction p died q hs hsel
    unfold pop.select at hsel
    by_cases hc : 0 ≤ fraction ∧ fraction ≤ 1
    · rw [if_pos hc] at hsel
      exact List.Pairwise.sublist (selectLoop_ok_sublist _ [] p died q hsel) hs
    · rw [if_neg hc] at hsel
      exact SelectResult.noConfusion hsel

/-- C6 (witness): the invariant at concrete inputs — a two-founder
construction, a reproduction step, a retirement and a selection all
yield sorted populations. -/
theorem population_sorted_invariant_witness :
    SortedPop [orgA, orgA] ∧
    SortedPop [{ orgA with reproduced := true }, orgA] ∧
    SortedPop (pop.retire [orgA, orgR]).2 ∧
    SortedPop [orgA] :=
  ⟨(population_sorted_invariant surfZero gaussZero).1 2 [orgA, orgA]
      (by with_unfolding_all decide),
    (population_sorted_invariant surfZero gaussZero).2.1 1 [orgA]
      [{ orgA with reproduced := true }, orgA] (by with_unfolding_all decide),
    (population_sorted_invariant surfZero gaussZero).2.2.1 [orgA, orgR]
      (by unfold SortedPop List.Sorted; with_unfolding_all decide),
    (population_sorted_invariant surfZero gaussZero).2.2.2 (1/2) [orgA, orgB]
      [organism.die orgB] [orgA]
      (by unfold SortedPop List.Sorted; with_unfolding_all decide)
      (by with_unfolding_all decide)⟩

/-! ## Helper lemmas about reproduction -/

/-- A completed child-creation loop yields exactly as many children as
requested. -/
theorem organism.reproduceAux_length (surf : ℚ → ℚ → Option ℚ)
    (gauss : ℚ → ℚ → ℕ → ℚ) (o : organism) :
    ∀ (n i : ℕ) (out : List organism),
      organism.reproduceAux surf gauss o n i = some out → out.length = n := by
  intro n
  induction n with
  | zero =>
    intro i out h
    have h2 : some ([] : List organism) = some out := h
    cases h2
    rfl
  | succ n ih =>
    intro i out h
    unfold organism.reproduceAux at h
    cases hc : organism.init surf (o.x + gauss 0 o.fitstep (2 * i))
        (o.y + gauss 0 o.fitstep (2 * i + 1)) (o.x, o.y, o.z) with
    | none => rw [hc] at h; exact Option.noConfusion h
    | some child =>
      rw [hc] at h
      cases hr : organism.reproduceAux surf gauss o n (i + 1) with
      | none => rw [hr] at h; exact Option.noConfusion h
      | some rest =>
        rw [hr] at h
        have h2 : some (child :: rest) = some out := h
        cases h2
        simp [List.length_cons, ih (i + 1) rest hr]

/-- A completed member loop of `pop.reproduce` returns the original
members in order, each flagged `reproduced`, together with
`members × N` young. -/
theorem pop.reproduceAux_spec (surf : ℚ → ℚ → Option ℚ)
    (gauss : ℚ → ℚ → ℕ → ℚ) (N : ℕ) :
    ∀ (p : List organism) (k : ℕ) (parents young : List organism),
      pop.reproduceAux surf gauss N p k = some (parents, young) →
      parents = p.map (fun o => { o with reproduced := true }) ∧
      young.length = p.length * N := by
  intro p
  induction p with
  | nil =>
    intro k parents young h
    have h2 : some (([] : List organism), ([] : List organism)) =
        some (parents, young) := h
    cases h2
    simp
  | cons o rest ih =>
    intro k parents young h
    unfold pop.reproduceAux at h
    cases hro : organism.reproduce surf (fun mu s j => gauss mu s (k + j)) o N with
    | none => rw [hro] at h; exact Option.noConfusion h
    | some pr =>
      obtain ⟨children, o2⟩ := pr
      rw [hro] at h
      cases hrec : pop.reproduceAux surf gauss N rest (k + 2 * N) with
      | none => rw [hrec] at h; exact Option.noConfusion h
      | some pr2 =>
        obtain ⟨parents2, young2⟩ := pr2
        rw [hrec] at h
        have h2 : some (o2 :: parents2, children ++ young2) =
            some (parents, young) := h
        cases h2
        obtain ⟨hpar, hyoung⟩ := ih (k + 2 * N) parents2 young2 hrec
        have ho2 : o2 = { o with reproduced := true } ∧ children.length = N := by
          unfold organism.reproduce at hro
          cases haux : organism.reproduceAux surf
              (fun mu s j => gauss mu s (k + j)) o N 0 with
          | none => rw [haux] at hro; exact Option.noConfusion hro
          | some out =>
            rw [haux] at hro
            have h3 : some (out, { o with reproduced := true }) =
                some (children, o2) := hro
            cases h3
            exact ⟨rfl, organism.reproduceAux_length _ _ o N 0 children haux⟩
        constructor
        · rw [List.map_cons, hpar, ho2.1]
        · rw [List.length_append, ho2.2, hyoung, List.length_cons, Nat.succ_mul]
          omega

/-- C4: a completed `pop.reproduce(N)` on a population of size `M`
yields size `M + M·N`, and every original member — now carrying the
`reproduced` flag its own `reproduce` set — is still in the
population. -/
theorem pop_reproduce_growth (surf : ℚ → ℚ → Option ℚ)
    (gauss : ℚ → ℚ → ℕ → ℚ) (N : ℕ) (p q : List organism)
    (h : pop.reproduce surf gauss N p = some q) :
    q.length = p.length + p.length * N ∧
    ∀ o ∈ p, { o with reproduced := true } ∈ q := by
  unfold pop.reproduce at h
  cases haux : pop.reproduceAux surf gauss N p 0 with
  | none => rw [haux] at h; exact Option.noConfusion h
  | some pr =>
    obtain ⟨parents, young⟩ := pr
    rw [haux] at h
    have h2 : some (sortByFitness (parents ++ young)) = some q := h
    cases h2
    obtain ⟨hpar, hyoung⟩ := pop.reproduceAux_spec surf gauss N p 0 parents young haux
    constructor
    · unfold sortByFitness
      rw [List.length_insertionSort, List.length_append, hpar,
        List.length_map, hyoung]
    · intro o ho
      have hmem : { o with reproduced := true } ∈ parents ++ young := by
        refine List.mem_append_left young ?_
        rw [hpar]
        exact List.mem_map_of_mem _ ho
      unfold sortByFitness
      simpa using hmem

/-- C4 (witness): one member reproducing once yields a two-member
population holding the flagged original and its child. -/
theorem pop_reproduce_growth_witness :
    (pop.reproduce surfZero gaussZero 1 [orgA] =
      some [{ orgA with reproduced := true }, orgA]) ∧
    ([{ orgA with reproduced := true }, orgA] : List organism).length =
      ([orgA] : List organism).length + ([orgA] : List organism).length * 1 ∧
    ∀ o ∈ ([orgA] : List organism), { o with reproduced := true } ∈
      ([{ orgA with reproduced := true }, orgA] : List organism) :=
  ⟨by with_unfolding_all decide,
    pop_reproduce_growth surfZero gaussZero 1 [orgA]
      [{ orgA with reproduced := true }, orgA] (by with_unfolding_all decide)⟩

/-! ## Claim theorems: the organism constructor and reproduction -/

/-- C7: a successfully constructed organism's `z` is exactly the
height the vertical ray-cast at its requested `(x, y)` returned, its
`fitness` is aliased to that `z`, and its stored `(x, y)` is the
requested point — the height is never chosen independently of the
surface. -/
theorem organism_fitness_from_surface (surf : ℚ → ℚ → Option ℚ)
    (x y : ℚ) (parentLoc : ℚ × ℚ × ℚ) (o : organism)
    (h : organism.init surf x y parentLoc = some o) :
    surf x y = some o.z ∧ o.fitness = o.z ∧ o.x = x ∧ o.y = y := by
  unfold organism.init organism.initCore at h
  cases hs : surf x y with
  | none => rw [hs] at h; exact Option.noConfusion h
  | some z =>
    rw [hs] at h
    have h2 : some ({ x := x, y := y, z := z, fitness := z, fitstep := 1/40,
                      radius := 1/200, reproduced := false,
                      hidden := false } : organism) = some o := h
    cases h2
    exact ⟨rfl, rfl, rfl, rfl⟩

/-- C7 (witness): on the flat zero landscape, the organism built at
the origin has `z = fitness = 0`, the surface height there. -/
theorem organism_fitness_from_surface_witness :
    (organism.init surfZero 0 0 (0, 0, 0) = some orgA) ∧
    surfZero 0 0 = some orgA.z ∧ orgA.fitness = orgA.z ∧
    orgA.x = 0 ∧ orgA.y = 0 :=
  ⟨by with_unfolding_all decide,
    organism_fitness_from_surface surfZero 0 0 (0, 0, 0) orgA
      (by with_unfolding_all decide)⟩

/-- C8: when the vertical ray-cast at `(x, y)` misses the landscape,
the constructor's whole event trace is the single `sys.exit` — no
proxy object was created before termination — and no organism is
produced. -/
theorem organism_init_miss (surf : ℚ → ℚ → Option ℚ) (x y : ℚ)
    (parentLoc : ℚ × ℚ × ℚ) (h : surf x y = none) :
    organism.initCore surf x y parentLoc =
      ([Event.processExit "point is not over fitnessLandscape"], none) ∧
    ∀ e ∈ (organism.initCore surf x y parentLoc).1, e.isProxyCreated = false := by
  have h1 : organism.initCore surf x y parentLoc =
      ([Event.processExit "point is not over fitnessLandscape"], none) := by
    unfold organism.initCore
    rw [h]
  refine ⟨h1, ?_⟩
  intro e he
  rw [h1] at he
  have h2 : e = Event.processExit "point is not over fitnessLandscape" := by
    simpa using he
  rw [h2]
  rfl

/-- C8 (witness): on the landscape every ray misses, construction at
the origin exits without creating a proxy. -/
theorem organism_init_miss_witness :
    surfNone 0 0 = none ∧
    (organism.initCore surfNone 0 0 (0, 0, 0) =
      ([Event.processExit "point is not over fitnessLandscape"], none) ∧
    ∀ e ∈ (organism.initCore surfNone 0 0 (0, 0, 0)).1,
      e.isProxyCreated = false) :=
  ⟨rfl, organism_init_miss surfNone 0 0 (0, 0, 0) rfl⟩

/-- The child-creation loop, fully specified: when every child's
ray-cast hits, it returns exactly `n` children, child `j` displaced
from the parent by the Gaussian draws `gauss(0, fitstep)` numbered
`2*(i+j)` and `2*(i+j)+1`. -/
theorem organism.reproduceAux_children (surf : ℚ → ℚ → Option ℚ)
    (gauss : ℚ → ℚ → ℕ → ℚ) (o : organism) :
    ∀ (n i : ℕ),
      (∀ j, j < n →
        (surf (o.x + gauss 0 o.fitstep (2 * (i + j)))
          (o.y + gauss 0 o.fitstep (2 * (i + j) + 1))).isSome = true) →
      ∃ out, organism.reproduceAux surf gauss o n i = some out ∧
        out.length = n ∧
        ∀ j, j < n → ∃ c, out[j]? = some c ∧
          c.x = o.x + gauss 0 o.fitstep (2 * (i + j)) ∧
          c.y = o.y + gauss 0 o.fitstep (2 * (i + j) + 1) ∧
          c.reproduced = false := by
  intro n
  induction n with
  | zero =>
    intro i _
    exact ⟨[], rfl, rfl, fun j hj => absurd hj (Nat.not_lt_zero j)⟩
  | succ n ih =>
    intro i h
    obtain ⟨z, hz⟩ := Option.isSome_iff_exists.mp (h 0 (Nat.succ_pos n))
    have hz2 : surf (o.x + gauss 0 o.fitstep (2 * i))
        (o.y + gauss 0 o.fitstep (2 * i + 1)) = some z := by
      simpa using hz
    obtain ⟨child, hinit, hchx, hchy, hchr⟩ :
        ∃ c, organism.init surf (o.x + gauss 0 o.fitstep (2 * i))
            (o.y + gauss 0 o.fitstep (2 * i + 1)) (o.x, o.y, o.z) = some c ∧
          c.x = o.x + gauss 0 o.fitstep (2 * i) ∧
          c.y = o.y + gauss 0 o.fitstep (2 * i + 1) ∧
          c.reproduced = false := by
      unfold organism.init organism.initCore
      rw [hz2]
      exact ⟨_, rfl, rfl, rfl, rfl⟩
    obtain ⟨rest, hrest, hlen, hidx⟩ := ih (i + 1) (fun j hj => by
      have hs := h (j + 1) (Nat.succ_lt_succ hj)
      have harith : i + (j + 1) = i + 1 + j := by omega
      rw [harith] at hs
      exact hs)
    refine ⟨child :: rest, ?_, ?_, ?_⟩
    · unfold organism.reproduceAux
      rw [hinit, hrest]
    · simp [hlen]
    · intro j hj
      cases j with
      | zero =>
        refine ⟨child, ?_, ?_, ?_, hchr⟩
        · simp
        · simpa using hchx
        · simpa using hchy
      | succ j =>
        obtain ⟨c, hc, hcx, hcy, hcr⟩ := hidx j (Nat.lt_of_succ_lt_succ hj)
        refine ⟨c, by simpa using hc, ?_, ?_, hcr⟩
        · rw [show i + (j + 1) = i + 1 + j from by omega]
          exact hcx
        · rw [show i + (j + 1) = i + 1 + j from by omega]
          exact hcy

/-- C9: when every child's ray-cast hits, `organism.reproduce(N)`
returns exactly `N` new organisms, the `i`-th at the parent's `(x, y)`
plus the Gaussian draws `gauss(0, fitstep)` — mean 0, standard
deviation the parent's fixed dispersal step — numbered `2*i` and
`2*i + 1`, and marks the parent `reproduced`. -/
theorem organism_reproduce_spec (surf : ℚ → ℚ → Option ℚ)
    (gauss : ℚ → ℚ → ℕ → ℚ) (o : organism) (N : ℕ)
    (h : ∀ i, i < N →
      (surf (o.x + gauss 0 o.fitstep (2 * i))
        (o.y + gauss 0 o.fitstep (2 * i + 1))).isSome = true) :
    ∃ out, organism.reproduce surf gauss o N =
        some (out, { o with reproduced := true }) ∧
      out.length = N ∧
      ∀ i, i < N → ∃ c, out[i]? = some c ∧
        c.x = o.x + gauss 0 o.fitstep (2 * i) ∧
        c.y = o.y + gauss 0 o.fitstep (2 * i + 1) ∧
        c.reproduced = false := by
  obtain ⟨out, haux, hlen, hidx⟩ := organism.reproduceAux_children surf gauss o N 0
    (fun j hj => by simpa using h j hj)
  refine ⟨out, ?_, hlen, fun i hi => by simpa using hidx i hi⟩
  unfold organism.reproduce
  rw [haux]

/-- C9 (witness): one child on the flat landscape with the zero
oracle: the child sits at the parent's `(x, y)` and the parent comes
back flagged. -/
theorem organism_reproduce_spec_witness :
    (∀ i, i < 1 →
      (surfZero (orgA.x + gaussZero 0 orgA.fitstep (2 * i))
        (orgA.y + gaussZero 0 orgA.fitstep (2 * i + 1))).isSome = true) ∧
    ∃ out, organism.reproduce surfZero gaussZero orgA 1 =
        some (out, { orgA with reproduced := true }) ∧
      out.length = 1 ∧
      ∀ i, i < 1 → ∃ c, out[i]? = some c ∧
        c.x = orgA.x + gaussZero 0 orgA.fitstep (2 * i) ∧
        c.y = orgA.y + gaussZero 0 orgA.fitstep (2 * i + 1) ∧
        c.reproduced = false :=
  ⟨fun _ _ => rfl,
    organism_reproduce_spec surfZero gaussZero orgA 1 (fun _ _ => rfl)⟩
